import Mathlib

/-!
Verification of the pdf-extractor-with-regex repository.

The development shallowly embeds the table-processing core of
`src/table_pdf_extractor.py` and the SQS key normalization of
`src/configs/tools/queue.py`.  A pandas `DataFrame` is modelled as a
list of column labels together with a list of rows (each row a list of
string cells); pandas calls that a dataframe is "empty" when it has no
rows or no columns.
-/

namespace PdfExtractor

/-- A pandas `DataFrame` of string cells: column labels plus rows. -/
structure DF where
  cols : List String
  data : List (List String)
deriving DecidableEq

/-- `df.empty` in pandas: true when there are no rows or no columns. -/
def DF.isEmpty (df : DF) : Bool := df.data.isEmpty || df.cols.isEmpty

/-- Well-formedness: every row has one cell per column. -/
def DF.wf (df : DF) : Prop := ∀ r ∈ df.data, r.length = df.cols.length

/-- `df.drop(columns=[lbl])` applied to one row: keep the cells whose
column label differs from `lbl` (pandas drops every column whose label
matches, not just the first). -/
def dropLabel (lbl : String) (cols row : List String) : List String :=
  ((cols.zip row).filter (fun p => p.1 ≠ lbl)).map Prod.snd

/-- `PDFTableExtractor.fix_header` (`src/table_pdf_extractor.py`):
if the frame is empty or has fewer than 2 rows it is returned as-is;
otherwise row 0 becomes the column labels (cells are already strings,
so `astype(str)` is the identity), row 0 is removed, and, when there is
at least one column, `df.drop(columns=[first label])` removes every
column labelled like the new first label. -/
def fix_header (df : DF) : DF :=
  if DF.isEmpty df then df
  else if df.data.length < 2 then df
  else
    match df.data with
    | [] => df
    | r0 :: rest =>
      if 0 < r0.length then
        let lbl := r0.headI
        ⟨r0.filter (fun c => c ≠ lbl), rest.map (fun r => dropLabel lbl r0 r)⟩
      else ⟨r0, rest⟩

end PdfExtractor

namespace PdfExtractor

theorem dropLabel_length (lbl : String) (cols row : List String)
    (h : row.length = cols.length) :
    (dropLabel lbl cols row).length = (cols.filter (fun c => c ≠ lbl)).length := by
  induction cols generalizing row with
  | nil => simp [dropLabel]
  | cons c cs ih =>
    cases row with
    | nil => simp at h
    | cons x xs =>
      simp only [List.length_cons, Nat.succ.injEq] at h
      by_cases hc : c = lbl
      · simpa [dropLabel, List.zip_cons_cons, List.filter_cons, hc] using ih xs h
      · simpa [dropLabel, List.zip_cons_cons, List.filter_cons, hc] using ih xs h

/-- On a frame with at least two rows and at least one column,
`fix_header` takes the r0-cons-rest branch and drops all columns
labelled like the first cell of row 0. -/
theorem fix_header_eq (r0 rest0 : List String) (rest : List (List String))
    (cols : List String) (hc : cols ≠ [])
    (hr0 : r0.length = cols.length) :
    fix_header ⟨cols, r0 :: rest0 :: rest⟩ =
      ⟨r0.filter (fun c => c ≠ r0.headI),
       (rest0 :: rest).map (fun r => dropLabel r0.headI r0 r)⟩ := by
  have hne : (DF.isEmpty ⟨cols, r0 :: rest0 :: rest⟩) = false := by
    simp [DF.isEmpty, hc]
  have hlen : ¬ ((r0 :: rest0 :: rest).length < 2) := by
    simp [List.length_cons]
  have hpos : 0 < r0.length := by
    rw [hr0]
    exact List.length_pos.mpr hc
  simp [fix_header, hne, hlen, hpos]

/-- C1: on a well-formed table with ≥ 2 rows and ≥ 1 column, `fix_header`
returns rows-1 rows; the new column labels are the cells of row 0 with
every occurrence of row 0's first cell removed, so the column count is
cols-1 exactly when row 0's first cell does not recur in the rest of
row 0.  A table with < 2 rows is returned unchanged. -/
theorem fix_header_spec (df : DF) (hwf : DF.wf df) :
    (df.data.length < 2 → fix_header df = df) ∧
    (∀ r0 rest, df.data = r0 :: rest → rest ≠ [] → df.cols ≠ [] →
      (fix_header df).data.length = df.data.length - 1 ∧
      (fix_header df).cols = r0.filter (fun c => c ≠ r0.headI) ∧
      (r0.tail.count r0.headI = 0 →
        (fix_header df).cols.length = df.cols.length - 1)) := by
  constructor
  · intro h
    by_cases he : DF.isEmpty df <;> simp [fix_header, he, h]
  · intro r0 rest hdata hrest hcols
    cases rest with
    | nil => exact absurd rfl hrest
    | cons rest0 rest' =>
      have hr0 : r0.length = df.cols.length := hwf r0 (by rw [hdata]; exact List.mem_cons_self _ _)
      obtain ⟨c, d⟩ := df
      simp only at hdata hcols hr0 ⊢
      subst hdata
      rw [fix_header_eq r0 rest0 rest' c hcols hr0]
      refine ⟨by simp, rfl, ?_⟩
      intro hcount
      have hr0ne : r0 ≠ [] := by
        intro h0
        rw [h0] at hr0
        exact hcols (List.length_eq_zero.mp hr0.symm)
      obtain ⟨a, t, hat⟩ := List.exists_cons_of_ne_nil hr0ne
      subst hat
      simp only [List.headI, List.tail] at hcount ⊢
      have hniln : a ∉ t := List.count_eq_zero.mp hcount
      have hfilter : t.filter (fun c => c ≠ a) = t := by
        rw [List.filter_eq_self]
        intro b hb
        simp only [decide_eq_true_eq]
        intro hba
        exact hniln (hba ▸ hb)
      simp only [List.filter_cons, decide_eq_true_eq]
      rw [if_neg (by simp)]
      rw [hfilter]
      simp only [List.length_cons] at hr0
      omega

/-- A 2-row, 2-column table whose row 0 repeats its first cell. -/
def dfDupHeader : DF := ⟨["0", "1"], [["a", "a"], ["x", "y"]]⟩

/-- C1 counterexample: the claim promises cols-1 = 1 columns, but
`fix_header` drops every column labelled like the first cell of row 0,
leaving 0 columns when that label recurs. -/
theorem fix_header_spec_counterexample :
    2 ≤ dfDupHeader.data.length ∧ 1 ≤ dfDupHeader.cols.length ∧
    (fix_header dfDupHeader).cols.length = 0 ∧
    dfDupHeader.cols.length - 1 = 1 := by decide

/-- C1 witness: the amended theorem applied to a concrete table with
distinct labels in row 0. -/
theorem fix_header_spec_witness :
    (fix_header ⟨["0", "1"], [["h1", "h2"], ["x", "y"]]⟩).data.length = 1 ∧
    (fix_header ⟨["0", "1"], [["h1", "h2"], ["x", "y"]]⟩).cols.length = 1 := by
  have h := fix_header_spec ⟨["0", "1"], [["h1", "h2"], ["x", "y"]]⟩
    (by intro r hr; fin_cases hr <;> rfl)
  have h2 := h.2 ["h1", "h2"] [["x", "y"]] rfl (by decide) (by decide)
  refine ⟨h2.1, ?_⟩
  rw [h2.2.2 (by decide)]
  rfl

/-- `df[name] = val` with a scalar: if `name` is already a column label,
every column with that label is overwritten in place; otherwise a new
column is appended on the right with `val` in every row. -/
def setCol (name val : String) (df : DF) : DF :=
  if df.cols.contains name then
    ⟨df.cols, df.data.map (fun r => (df.cols.zip r).map
      (fun p => if p.1 = name then val else p.2))⟩
  else
    ⟨df.cols ++ [name], df.data.map (fun r => r ++ [val])⟩

/-- `PDFTableExtractor.add_header_info` (`src/table_pdf_extractor.py`):
with an absent or empty header frame, the content frame just gains the
`insertion_date` column; with an empty content frame, an empty frame
with the header's columns plus `insertion_date` is returned; otherwise
the header's first row is replicated beside every content row and the
`insertion_date` column is added.  `date` stands for the value of
`pd.Timestamp("today").normalize()` rendered as a cell. -/
def add_header_info (date : String) (header : Option DF) (content : DF) : DF :=
  match header with
  | none => setCol "insertion_date" date content
  | some h =>
    if DF.isEmpty h then setCol "insertion_date" date content
    else if DF.isEmpty content then ⟨h.cols ++ ["insertion_date"], []⟩
    else
      let hrow := h.data.headI
      let combined : DF := ⟨content.cols ++ h.cols,
        content.data.map (fun r => r ++ hrow)⟩
      setCol "insertion_date" date combined

theorem setCol_not_mem (name val : String) (df : DF)
    (h : name ∉ df.cols) :
    setCol name val df = ⟨df.cols ++ [name], df.data.map (fun r => r ++ [val])⟩ := by
  unfold setCol
  rw [if_neg (by simpa using h)]

/-- C2: shape and cell values of `add_header_info`, provided neither
frame already has an `insertion_date` column.  With header and content
both non-empty the result has the content columns, then the header
columns, then `insertion_date` (c + h + 1 columns), and every result
row is the corresponding content row unchanged, followed by the
header's first row (the same row broadcast to every content row, later
header rows ignored), followed by the date cell; with empty content it
has the header columns plus `insertion_date` and no rows; with an
absent or empty header every content row is unchanged except for
gaining the date cell. -/
theorem add_header_info_spec (date : String) (header : Option DF) (content : DF)
    (hc : "insertion_date" ∉ content.cols)
    (hh : ∀ h, header = some h → "insertion_date" ∉ h.cols) :
    (∀ h, header = some h → DF.isEmpty h = false → DF.isEmpty content = false →
      (add_header_info date header content).cols =
        content.cols ++ h.cols ++ ["insertion_date"] ∧
      (add_header_info date header content).data =
        content.data.map (fun r => r ++ h.data.headI ++ [date])) ∧
    (∀ h, header = some h → DF.isEmpty h = false → DF.isEmpty content = true →
      (add_header_info date header content).cols = h.cols ++ ["insertion_date"] ∧
      (add_header_info date header content).data = []) ∧
    ((header = none ∨ ∃ h, header = some h ∧ DF.isEmpty h = true) →
      (add_header_info date header content).cols = content.cols ++ ["insertion_date"] ∧
      (add_header_info date header content).data =
        content.data.map (fun r => r ++ [date])) := by
  refine ⟨?_, ?_, ?_⟩
  · intro h hhd hhe hce
    have hhcol := hh h hhd
    subst hhd
    have hcomb : "insertion_date" ∉ content.cols ++ h.cols := by
      simp only [List.mem_append]
      rintro (hmem | hmem)
      · exact hc hmem
      · exact hhcol hmem
    simp only [add_header_info, hhe, hce, Bool.false_eq_true, if_false]
    rw [setCol_not_mem _ _ _ hcomb]
    refine ⟨rfl, ?_⟩
    rw [List.map_map]
    rfl
  · intro h hhd hhe hce
    subst hhd
    simp [add_header_info, hhe, hce]
  · intro hcase
    have hres : add_header_info date header content = setCol "insertion_date" date content := by
      rcases hcase with hn | ⟨h, hhd, hhe⟩
      · rw [hn]; rfl
      · rw [hhd]; simp [add_header_info, hhe]
    rw [hres, setCol_not_mem _ _ _ hc]
    exact ⟨rfl, rfl⟩

/-- C2 counterexample: a content frame that already carries an
`insertion_date` column.  The claim promises c + h + 1 = 3 columns, but
the date assignment overwrites the existing column in place, leaving 2. -/
theorem add_header_info_spec_counterexample :
    (DF.isEmpty (⟨["a"], [["v"]]⟩ : DF)) = false ∧
    (DF.isEmpty (⟨["insertion_date"], [["x"]]⟩ : DF)) = false ∧
    (add_header_info "d" (some ⟨["a"], [["v"]]⟩) ⟨["insertion_date"], [["x"]]⟩).cols.length = 2 ∧
    (⟨["insertion_date"], [["x"]]⟩ : DF).cols.length +
      (⟨["a"], [["v"]]⟩ : DF).cols.length + 1 = 3 := by decide

/-- C2 witness: the amended theorem applied to concrete frames — the
header row `["v"]` is broadcast beside both unchanged content rows and
the date cell closes each row.  The header's second row `["w"]` is
ignored, as claimed. -/
theorem add_header_info_spec_witness :
    (add_header_info "d" (some ⟨["a"], [["v"], ["w"]]⟩) ⟨["b"], [["x"], ["y"]]⟩).cols =
      ["b", "a", "insertion_date"] ∧
    (add_header_info "d" (some ⟨["a"], [["v"], ["w"]]⟩) ⟨["b"], [["x"], ["y"]]⟩).data =
      [["x", "v", "d"], ["y", "v", "d"]] := by
  have h := add_header_info_spec "d" (some ⟨["a"], [["v"], ["w"]]⟩) ⟨["b"], [["x"], ["y"]]⟩
    (by decide) (by intro hdr hd; cases hd; decide)
  have h1 := h.1 ⟨["a"], [["v"], ["w"]]⟩ rfl (by decide) (by decide)
  refine ⟨h1.1, ?_⟩
  rw [h1.2]
  rfl

/-- The `unidecode` transliteration, modelled on the character range the
pipeline meets: ASCII code points are kept unchanged, accented Latin
letters map to their base letter, and any other code point maps to the
empty string (as `unidecode` does for unmapped code points). -/
def unidecodeChar (c : Char) : List Char :=
  if c.toNat < 128 then [c]
  else if c = 'ç' then ['c']
  else if c = 'Ç' then ['C']
  else if c = 'á' ∨ c = 'à' ∨ c = 'ã' ∨ c = 'â' then ['a']
  else if c = 'Á' ∨ c = 'À' ∨ c = 'Ã' ∨ c = 'Â' then ['A']
  else if c = 'é' ∨ c = 'ê' then ['e']
  else if c = 'É' ∨ c = 'Ê' then ['E']
  else if c = 'í' then ['i']
  else if c = 'Í' then ['I']
  else if c = 'ó' ∨ c = 'ô' ∨ c = 'õ' then ['o']
  else if c = 'Ó' ∨ c = 'Ô' ∨ c = 'Õ' then ['O']
  else if c = 'ú' ∨ c = 'ü' then ['u']
  else if c = 'Ú' ∨ c = 'Ü' then ['U']
  else []

/-- `str.replace(" ", "_")` acting on one character. -/
def spaceToUnderscore (c : Char) : Char := if c = ' ' then '_' else c

/-- The regex class `\w` on the ASCII strings produced by `unidecode`:
letters, digits and underscore.  `re.sub(r"[^\w]+", "", s)` keeps
exactly these characters. -/
def isWordChar (c : Char) : Bool :=
  (97 ≤ c.toNat && c.toNat ≤ 122) || (65 ≤ c.toNat && c.toNat ≤ 90) ||
    (48 ≤ c.toNat && c.toNat ≤ 57) || c = '_'

/-- One column label through `sanitize_column_names`
(`src/table_pdf_extractor.py`): transliterate, replace spaces with
underscores, strip non-word characters, lowercase (`str.lower` on the
ASCII output of the previous steps is `Char.toLower`). -/
def sanitizeChars (cs : List Char) : List Char :=
  ((((cs.map unidecodeChar).flatten).map spaceToUnderscore).filter isWordChar).map Char.toLower

/-- String form of `sanitizeChars`; `str(col)` is the identity here
because labels are already strings. -/
def sanitizeStr (s : String) : String := ⟨sanitizeChars s.data⟩

/-- `PDFTableExtractor.sanitize_column_names`: an empty frame is
returned as-is, otherwise every column label is sanitized. -/
def sanitize_column_names (df : DF) : DF :=
  if DF.isEmpty df then df else ⟨df.cols.map sanitizeStr, df.data⟩

theorem ascii_sanitize_facts : ∀ n : Fin 128,
    isWordChar (Char.ofNat n.val) = true →
    unidecodeChar (Char.toLower (Char.ofNat n.val)) = [Char.toLower (Char.ofNat n.val)] ∧
    spaceToUnderscore (Char.toLower (Char.ofNat n.val)) = Char.toLower (Char.ofNat n.val) ∧
    isWordChar (Char.toLower (Char.ofNat n.val)) = true ∧
    Char.toLower (Char.toLower (Char.ofNat n.val)) = Char.toLower (Char.ofNat n.val) := by
  decide

theorem isWordChar_lt_128 (c : Char) (h : isWordChar c = true) : c.toNat < 128 := by
  simp only [isWordChar, Bool.or_eq_true, Bool.and_eq_true, decide_eq_true_eq] at h
  rcases h with ((⟨_, h⟩ | ⟨_, h⟩) | ⟨_, h⟩) | h
  · omega
  · omega
  · omega
  · subst h; decide

theorem sanitize_char_fact (c : Char) (h : isWordChar c = true) :
    unidecodeChar (Char.toLower c) = [Char.toLower c] ∧
    spaceToUnderscore (Char.toLower c) = Char.toLower c ∧
    isWordChar (Char.toLower c) = true ∧
    Char.toLower (Char.toLower c) = Char.toLower c := by
  have h128 := isWordChar_lt_128 c h
  have hfact := ascii_sanitize_facts ⟨c.toNat, h128⟩
  simp only [Char.ofNat_toNat] at hfact
  exact hfact h

theorem mem_sanitizeChars (cs : List Char) (c : Char) (h : c ∈ sanitizeChars cs) :
    ∃ d, isWordChar d = true ∧ c = Char.toLower d := by
  unfold sanitizeChars at h
  obtain ⟨d, hd, hdc⟩ := List.mem_map.mp h
  exact ⟨d, (List.mem_filter.mp hd).2, hdc.symm⟩

theorem flatten_map_unidecode_of_fixed (cs : List Char)
    (h : ∀ c ∈ cs, unidecodeChar c = [c]) : (cs.map unidecodeChar).flatten = cs := by
  induction cs with
  | nil => rfl
  | cons a l ih =>
    simp only [List.map_cons, List.flatten_cons]
    rw [h a (List.mem_cons_self _ _), ih (fun c hc => h c (List.mem_cons_of_mem _ hc))]
    rfl

theorem map_of_fixed {f : Char → Char} (cs : List Char)
    (h : ∀ c ∈ cs, f c = c) : cs.map f = cs := by
  induction cs with
  | nil => rfl
  | cons a l ih =>
    simp only [List.map_cons]
    rw [h a (List.mem_cons_self _ _), ih (fun c hc => h c (List.mem_cons_of_mem _ hc))]

theorem sanitizeChars_fixed (cs : List Char)
    (h : ∀ c ∈ cs, unidecodeChar c = [c] ∧ spaceToUnderscore c = c ∧
      isWordChar c = true ∧ Char.toLower c = c) :
    sanitizeChars cs = cs := by
  unfold sanitizeChars
  rw [flatten_map_unidecode_of_fixed cs (fun c hc => (h c hc).1)]
  rw [map_of_fixed cs (fun c hc => (h c hc).2.1)]
  rw [List.filter_eq_self.mpr (fun c hc => (h c hc).2.2.1)]
  exact map_of_fixed cs (fun c hc => (h c hc).2.2.2)

theorem sanitizeChars_idem (cs : List Char) :
    sanitizeChars (sanitizeChars cs) = sanitizeChars cs := by
  apply sanitizeChars_fixed
  intro c hc
  obtain ⟨d, hd, hcd⟩ := mem_sanitizeChars cs c hc
  subst hcd
  exact sanitize_char_fact d hd

theorem sanitizeStr_idem (s : String) : sanitizeStr (sanitizeStr s) = sanitizeStr s := by
  unfold sanitizeStr
  exact congrArg String.mk (sanitizeChars_idem s.data)

theorem map_sanitizeStr_idem (l : List String) :
    (l.map sanitizeStr).map sanitizeStr = l.map sanitizeStr := by
  induction l with
  | nil => rfl
  | cons a t ih => simp only [List.map_cons, sanitizeStr_idem, ih]

theorem sanitize_column_names_idem (df : DF) :
    sanitize_column_names (sanitize_column_names df) = sanitize_column_names df := by
  by_cases he : DF.isEmpty df
  · simp [sanitize_column_names, he]
  · have hcolsmap : (df.cols.map sanitizeStr).isEmpty = df.cols.isEmpty := by
      cases df.cols <;> rfl
    have he2 : DF.isEmpty ⟨df.cols.map sanitizeStr, df.data⟩ = DF.isEmpty df := by
      simp only [DF.isEmpty, hcolsmap]
    have h1 : sanitize_column_names df = ⟨df.cols.map sanitizeStr, df.data⟩ := by
      unfold sanitize_column_names
      rw [if_neg he]
    rw [h1]
    unfold sanitize_column_names
    rw [if_neg (by rw [he2]; exact he)]
    simp only [DF.mk.injEq, and_true]
    exact map_sanitizeStr_idem df.cols

/-- C3: sanitizing column labels is idempotent, at the level of label
lists and of whole frames, and the concrete examples behave as stated:
"Preço (R$)" sanitizes to "preco_r" and "preco_r" is a fixed point. -/
theorem sanitize_idempotent :
    (∀ labels : List String,
      (labels.map sanitizeStr).map sanitizeStr = labels.map sanitizeStr) ∧
    (∀ df : DF, sanitize_column_names (sanitize_column_names df) = sanitize_column_names df) ∧
    sanitizeStr "Preço (R$)" = "preco_r" ∧
    sanitizeStr "preco_r" = "preco_r" := by
  exact ⟨map_sanitizeStr_idem, sanitize_column_names_idem, by decide, by decide⟩

instance : Inhabited DF := ⟨⟨[], []⟩⟩

/-- The keyword arguments handed to `camelot.read_pdf`.  `none` in
`table_areas` / `columns` means the key is not present in the dict. -/
structure CamelotArgs where
  flavor : String
  strip_text : Option String
  pages : String
  password : Option String
  table_areas : Option (List String)
  columns : Option (List String)
deriving DecidableEq

/-- The first, flavor-conditional construction of `camelot_args` in
`get_table_data`: for "stream" it attaches `columns` and `table_areas`
when they are truthy (non-`None` and non-empty), for "lattice" only
`table_areas`, and nothing for other flavors. -/
def camelot_args_first (flavor : String) (strip : Option String) (pages : String)
    (pw : Option String) (areas cols : Option (List String)) : CamelotArgs :=
  let base : CamelotArgs := ⟨flavor, strip, pages, pw, none, none⟩
  if flavor = "stream" then
    let a1 :=
      match cols with
      | some c => if c.isEmpty then base else { base with columns := some c }
      | none => base
    match areas with
    | some a => if a.isEmpty then a1 else { a1 with table_areas := some a }
    | none => a1
  else if flavor = "lattice" then
    match areas with
    | some a => if a.isEmpty then base else { base with table_areas := some a }
    | none => base
  else base

/-- The second construction of `camelot_args` in `get_table_data`, which
rebinds the same variable: it attaches `table_areas` exactly when the
areas are not `None` and `columns` exactly when the column boundaries
are not `None`, independently of the flavor. -/
def camelot_args_second (flavor : String) (strip : Option String) (pages : String)
    (pw : Option String) (areas cols : Option (List String)) : CamelotArgs :=
  let base : CamelotArgs := ⟨flavor, strip, pages, pw, none, none⟩
  let a1 :=
    match areas with
    | some a => { base with table_areas := some a }
    | none => base
  match cols with
  | some c => { a1 with columns := some c }
  | none => a1

/-- The argument dict that `get_table_data` actually passes to
`camelot.read_pdf`: the first construction is computed and then the
variable is immediately rebound to the second construction. -/
def build_camelot_args (flavor : String) (strip : Option String) (pages : String)
    (pw : Option String) (areas cols : Option (List String)) : CamelotArgs :=
  let args := camelot_args_first flavor strip pages pw areas cols
  let args := camelot_args_second flavor strip pages pw areas cols
  args

/-- `pd.concat(fragments, ignore_index=True)` in the uniform case the
extractor produces (fragments of one logical table share one column
list): the columns of the first fragment and the concatenation of all
rows in fragment order. -/
def concat_ignore_index (dfs : List DF) : DF :=
  ⟨(dfs.headI).cols, (dfs.map DF.data).flatten⟩

/-- `PDFTableExtractor.get_table_data` with its effects made explicit:
`fileExists` models `os.path.exists(self.download_path)`, and `camelot`
the outcome of `camelot.read_pdf` (`Except.error` when it raises; the
surrounding `try` turns any exception into `None`).  When tables are
found, the optional header fix is applied to each fragment and the
fragments are concatenated in page order. -/
def get_table_data (fileExists : Bool) (camelot : Except Unit (List DF))
    (fixHdr : Bool) : Option DF :=
  if fileExists = false then none
  else
    match camelot with
    | Except.error _ => none
    | Except.ok tables =>
      if tables.length = 0 then none
      else
        let processed := tables.map (fun t => if fixHdr then fix_header t else t)
        if processed.isEmpty then none
        else some (concat_ignore_index processed)

/-- `PDFTableExtractor.send_to_db`: an empty frame returns at once
without touching the database; otherwise the append is attempted and a
database failure propagates (`raise e`).  `dbOk` models whether the
insert succeeds; the `ok` value records the append call that was made,
`none` when no call happened. -/
def send_to_db (dbOk : Bool) (df : DF) (tableName : String) :
    Except Unit (Option (String × DF)) :=
  if DF.isEmpty df then Except.ok none
  else if dbOk then Except.ok (some (tableName, df)) else Except.error ()

/-- The effectful context of `PDFTableExtractor.start`: whether the S3
download succeeds, the three `get_table_data` results, the
`small_sanitize` config flag, the config `name`, and whether each
database insert succeeds. -/
structure JobEnv where
  downloadOk : Bool
  headerRes : Option DF
  mainRes : Option DF
  smallRes : Option DF
  smallSanitize : Bool
  cfgName : String
  mainDbOk : Bool
  smallDbOk : Bool

/-- The observable outcome of `PDFTableExtractor.start`. -/
structure JobResult where
  success : Bool
  cleanupAttempted : Bool
  fileExistsAfter : Bool
  mainSent : Option (String × DF)
  smallSent : Option (String × DF)
deriving DecidableEq

/-- The main-table block of `start`: skipped when the main frame is
absent or empty, otherwise header info is added, columns are sanitized
and the frame is sent to the `fatura_<name>` table. -/
def main_step (env : JobEnv) (date : String) : Except Unit (Option (String × DF)) :=
  match env.mainRes with
  | none => Except.ok none
  | some df =>
    if DF.isEmpty df then Except.ok none
    else send_to_db env.mainDbOk
      (sanitize_column_names (add_header_info date env.headerRes df))
      (("fatura_" ++ env.cfgName).toLower)

/-- The small-table block of `start`: skipped when the small frame is
absent or empty; sanitization is conditional on `small_sanitize`. -/
def small_step (env : JobEnv) (date : String) : Except Unit (Option (String × DF)) :=
  match env.smallRes with
  | none => Except.ok none
  | some df =>
    if DF.isEmpty df then Except.ok none
    else
      let s0 := add_header_info date env.headerRes df
      send_to_db env.smallDbOk
        (if env.smallSanitize then sanitize_column_names s0 else s0)
        (("fatura_" ++ env.cfgName ++ "_small").toLower)

/-- `PDFTableExtractor.start`: a failed download raises before
`file_downloaded` is set, so the `finally` block does not touch the
file; after a successful download the `finally` block always removes
the downloaded file, whether or not a later step raised. -/
def start (env : JobEnv) (date : String) : JobResult :=
  if env.downloadOk = false then ⟨false, false, false, none, none⟩
  else
    match main_step env date with
    | Except.error _ => ⟨false, true, false, none, none⟩
    | Except.ok mainSent =>
      match small_step env date with
      | Except.error _ => ⟨false, true, false, mainSent, none⟩
      | Except.ok smallSent => ⟨true, true, false, mainSent, smallSent⟩

/-- C10: the flavor-conditional first construction of the camelot
arguments is dead code: the dict actually passed to the PDF-table
library is always the second construction, which attaches the area
rectangles exactly when they are not `None` and the column boundaries
exactly when they are not `None`, independent of the flavor — and the
first construction genuinely differs from it (for "lattice" it never
attaches column boundaries). -/
theorem build_camelot_args_spec :
    (∀ flavor strip pages pw areas cols,
      build_camelot_args flavor strip pages pw areas cols =
        ⟨flavor, strip, pages, pw, areas, cols⟩) ∧
    camelot_args_first "lattice" none "all" none none (some ["72,73"]) ≠
      build_camelot_args "lattice" none "all" none none (some ["72,73"]) := by
  constructor
  · intro flavor strip pages pw areas cols
    cases areas <;> cases cols <;> rfl
  · decide

/-- C4: `get_table_data` yields `none` (never an exception) when the
local file is missing, when the extraction raises, and when zero tables
are detected; and the orchestrator treats absent zones as soft
failures: a job with both zones absent still returns `True`. -/
theorem get_table_data_absent_spec :
    (∀ camelot fixHdr, get_table_data false camelot fixHdr = none) ∧
    (∀ fixHdr, get_table_data true (Except.error ()) fixHdr = none) ∧
    (∀ fixHdr, get_table_data true (Except.ok []) fixHdr = none) ∧
    (∀ env date, env.downloadOk = true → env.mainRes = none → env.smallRes = none →
      (start env date).success = true) := by
  refine ⟨fun _ _ => rfl, fun _ => rfl, fun _ => rfl, ?_⟩
  intro env date hdl hm hs
  have h1 : main_step env date = Except.ok none := by simp [main_step, hm]
  have h2 : small_step env date = Except.ok none := by simp [small_step, hs]
  unfold start
  rw [if_neg (by simp [hdl]), h1, h2]

/-- C4 witness: a concrete job with every zone absent succeeds. -/
theorem get_table_data_absent_spec_witness :
    (start ⟨true, none, none, none, true, "n", true, true⟩ "d").success = true :=
  get_table_data_absent_spec.2.2.2 ⟨true, none, none, none, true, "n", true, true⟩ "d"
    rfl rfl rfl

/-- First of two fragments of one table region, with its own header row. -/
def fragA : DF := ⟨["0", "1"], [["h", "v"], ["1", "2"]]⟩

/-- Second fragment of the same region on the next page. -/
def fragB : DF := ⟨["0", "1"], [["h", "v"], ["3", "4"]]⟩

/-- C5: with the header fix enabled, `get_table_data` applies
`fix_header` to each fragment independently and only then concatenates
the fragments in page order, so the result is the concatenation of the
individually fixed fragments; fixing after concatenation is a genuinely
different operation (it would leave later fragments' header rows in the
data). -/
theorem get_table_data_fix_before_concat (tables : List DF) (h : tables ≠ []) :
    get_table_data true (Except.ok tables) true =
      some (concat_ignore_index (tables.map fix_header)) ∧
    (concat_ignore_index (tables.map fix_header)).data =
      (tables.map (fun t => (fix_header t).data)).flatten ∧
    fix_header (concat_ignore_index [fragA, fragB]) ≠
      concat_ignore_index ([fragA, fragB].map fix_header) := by
  refine ⟨?_, ?_, by decide⟩
  · cases tables with
    | nil => exact absurd rfl h
    | cons t ts => simp [get_table_data]
  · simp only [concat_ignore_index, List.map_map]
    rfl

/-- C5 witness: the theorem applied to the two concrete fragments. -/
theorem get_table_data_fix_before_concat_witness :
    get_table_data true (Except.ok [fragA, fragB]) true =
      some (concat_ignore_index ([fragA, fragB].map fix_header)) :=
  (get_table_data_fix_before_concat [fragA, fragB] (by decide)).1

/-- C6: whenever the download step succeeded, the `finally` block runs
the cleanup and the local file is gone after the job terminates, no
matter which later step failed; when the download never completed no
cleanup is attempted. -/
theorem start_cleanup_spec (env : JobEnv) (date : String) :
    (env.downloadOk = true →
      (start env date).fileExistsAfter = false ∧
      (start env date).cleanupAttempted = true) ∧
    (env.downloadOk = false → (start env date).cleanupAttempted = false) := by
  constructor
  · intro h
    unfold start
    rw [if_neg (by simp [h])]
    cases hm : main_step env date with
    | error e => exact ⟨rfl, rfl⟩
    | ok m =>
      cases hs : small_step env date with
      | error e => exact ⟨rfl, rfl⟩
      | ok s => exact ⟨rfl, rfl⟩
  · intro h
    unfold start
    rw [if_pos h]

/-- C6 witness: a job whose main insert fails still ends with the file
removed, and a job whose download fails attempts no cleanup. -/
theorem start_cleanup_spec_witness :
    (start ⟨true, none, some ⟨["a"], [["x"]]⟩, none, true, "n", false, false⟩ "d").success = false ∧
    (start ⟨true, none, some ⟨["a"], [["x"]]⟩, none, true, "n", false, false⟩ "d").fileExistsAfter = false ∧
    (start ⟨false, none, none, none, true, "n", true, true⟩ "d").cleanupAttempted = false :=
  ⟨by decide,
   ((start_cleanup_spec ⟨true, none, some ⟨["a"], [["x"]]⟩, none, true, "n", false, false⟩ "d").1 rfl).1,
   (start_cleanup_spec ⟨false, none, none, none, true, "n", true, true⟩ "d").2 rfl⟩

/-- C7: persisting an empty frame is a no-op: `send_to_db` returns
without invoking the database-append collaborator (no call is recorded
and no failure can occur, whatever the database would do). -/
theorem send_to_db_empty_noop (dbOk : Bool) (df : DF) (tableName : String)
    (h : DF.isEmpty df = true) :
    send_to_db dbOk df tableName = Except.ok none := by
  unfold send_to_db
  rw [if_pos h]

/-- C7 witness: an empty frame with a failing database still makes no
append call. -/
theorem send_to_db_empty_noop_witness :
    send_to_db false ⟨["a"], []⟩ "t" = Except.ok none :=
  send_to_db_empty_noop false ⟨["a"], []⟩ "t" rfl

/-- C8: a job in which both the main and the small zone yield no table
(absent or empty) still succeeds, and neither zone sends anything to
the database. -/
theorem start_both_absent_success (env : JobEnv) (date : String)
    (hdl : env.downloadOk = true)
    (hmain : env.mainRes = none ∨ ∃ df, env.mainRes = some df ∧ DF.isEmpty df = true)
    (hsmall : env.smallRes = none ∨ ∃ df, env.smallRes = some df ∧ DF.isEmpty df = true) :
    (start env date).success = true ∧
    (start env date).mainSent = none ∧ (start env date).smallSent = none := by
  have h1 : main_step env date = Except.ok none := by
    rcases hmain with hm | ⟨df, hm, he⟩
    · simp [main_step, hm]
    · simp [main_step, hm, he]
  have h2 : small_step env date = Except.ok none := by
    rcases hsmall with hs | ⟨df, hs, he⟩
    · simp [small_step, hs]
    · simp [small_step, hs, he]
  unfold start
  rw [if_neg (by simp [hdl]), h1, h2]
  exact ⟨rfl, rfl, rfl⟩

/-- C8 witness: main zone extracted but empty, small zone absent, both
database sinks failing — the job still succeeds with nothing sent. -/
theorem start_both_absent_success_witness :
    (start ⟨true, none, some ⟨[], []⟩, none, true, "n", false, false⟩ "d").success = true :=
  (start_both_absent_success ⟨true, none, some ⟨[], []⟩, none, true, "n", false, false⟩ "d"
    rfl (Or.inr ⟨⟨[], []⟩, rfl, rfl⟩) (Or.inl rfl)).1

/-- A hex digit as `urllib.parse.unquote` accepts it: 0-9, A-F, a-f. -/
def hexDigit (c : Char) : Option Nat :=
  if 48 ≤ c.toNat ∧ c.toNat ≤ 57 then some (c.toNat - 48)
  else if 65 ≤ c.toNat ∧ c.toNat ≤ 70 then some (c.toNat - 55)
  else if 97 ≤ c.toNat ∧ c.toNat ≤ 102 then some (c.toNat - 87)
  else none

/-- `urllib.parse.unquote` at the code-point level: a valid `%XX`
escape becomes the character with code `XX`, an invalid escape is kept
literally, and — unlike `unquote_plus` — `+` is never touched here.
Multi-byte UTF-8 escape sequences are outside the modelled fragment. -/
def unquoteChars : List Char → List Char
  | '%' :: a :: b :: rest =>
    match hexDigit a, hexDigit b with
    | some x, some y => Char.ofNat (16 * x + y) :: unquoteChars rest
    | _, _ => '%' :: unquoteChars (a :: b :: rest)
  | c :: rest => c :: unquoteChars rest
  | [] => []

/-- `re.sub(r"\+(?=\()", " ", s)` (`HTMLSQSListener.check_messages` in
`src/configs/tools/queue.py`) as the regex engine scans it: at each
position, if the pattern matches — the character is `+` and the
lookahead sees `(` — the `+` is replaced by a space and the scan
resumes at the `(`, which the lookahead did not consume; otherwise the
character is kept and the scan advances. -/
def rePlusParen (cs : List Char) : List Char :=
  match cs with
  | '+' :: '(' :: rest => ' ' :: rePlusParen ('(' :: rest)
  | c :: rest => c :: rePlusParen rest
  | [] => []
termination_by cs.length
decreasing_by
  all_goals simp [List.length_cons]

/-- Modelled from the spec: the claimed pointwise reading of the
normalization — a character becomes a space exactly when it is `+` and
the next character is `(`. -/
def plusFix (cs : List Char) : List Char :=
  match cs with
  | [] => []
  | c :: rest => (if c = '+' ∧ rest[0]? = some '(' then ' ' else c) :: plusFix rest

/-- The key normalization applied to a consumed S3 object key:
`unquote` first, then the `+`-before-`(` substitution. -/
def clean_key (key : String) : String := ⟨rePlusParen (unquoteChars key.data)⟩

theorem rePlusParen_eq_plusFix (cs : List Char) : rePlusParen cs = plusFix cs := by
  induction cs with
  | nil => simp [rePlusParen, plusFix]
  | cons c rest ih =>
    rw [rePlusParen.eq_def]
    split
    · rename_i rest1 heq
      obtain ⟨hc, hrest⟩ : c = '+' ∧ rest = '(' :: rest1 := by
        injection heq with h1 h2
        exact ⟨h1, h2⟩
      subst hc
      subst hrest
      rw [ih]
      simp [plusFix]
    · rename_i c1 rest2 hne heq
      injection heq with h1 h2
      subst h1
      subst h2
      rw [ih]
      have hcond : ¬(c = '+' ∧ rest[0]? = some '(') := by
        rintro ⟨hp, hl⟩
        cases rest with
        | nil => simp at hl
        | cons d t =>
          simp only [List.getElem?_cons_zero, Option.some.injEq] at hl
          exact hne t hp (by rw [hl])
      simp [plusFix, hcond]
    · rename_i heq3
      exact absurd heq3 (List.cons_ne_nil _ _)

theorem plusFix_pointwise (cs : List Char) :
    (plusFix cs).length = cs.length ∧
    ∀ i : Nat, (plusFix cs)[i]? =
      if cs[i]? = some '+' ∧ cs[i + 1]? = some '(' then some ' ' else cs[i]? := by
  induction cs with
  | nil => simp [plusFix]
  | cons c rest ih =>
    refine ⟨by simp [plusFix, ih.1], ?_⟩
    intro i
    cases i with
    | zero =>
      simp only [plusFix, List.getElem?_cons_zero, List.getElem?_cons_succ]
      by_cases hc : c = '+' ∧ rest[0]? = some '('
      · simp [hc]
      · rw [if_neg hc, if_neg (by simpa using hc)]
    | succ j =>
      simp only [plusFix, List.getElem?_cons_succ]
      exact ih.2 j

/-- C9: the consumed object key is first URL-unescaped and then
normalized by replacing every literal `+` that is immediately followed
by `(` with a space, leaving every other character — in particular
every other `+` — untouched. -/
theorem clean_key_spec (key : String) :
    (clean_key key).data = rePlusParen (unquoteChars key.data) ∧
    (∀ cs : List Char,
      rePlusParen cs = plusFix cs ∧
      (rePlusParen cs).length = cs.length ∧
      ∀ i : Nat, (rePlusParen cs)[i]? =
        if cs[i]? = some '+' ∧ cs[i + 1]? = some '(' then some ' ' else cs[i]?) ∧
    clean_key "a%20b+c+(d)" = "a b+c (d)" := by
  refine ⟨rfl, ?_, ?_⟩
  · intro cs
    rw [rePlusParen_eq_plusFix]
    exact ⟨rfl, plusFix_pointwise cs⟩
  · show String.mk (rePlusParen (unquoteChars "a%20b+c+(d)".data)) = "a b+c (d)"
    rw [rePlusParen_eq_plusFix]
    decide
